import Mathlib

/-!
Verification of the redis-backed queue/stack subsystem (qredis.py).

The remote redis list store is modelled as a Lean list of stored strings,
with the head of the list being the LEFT end of the redis list.  Python
strings are modelled as lists of characters (`Str`).  The redis primitives
used by the code are `rpush` (append on the right), `lpop`/`blpop` (pop on
the left), `rpop`/`brpop` (pop on the right) and `llen` (length).
-/

/-- A Python string: a sequence of characters. -/
abbrev Str := List Char

/-- The redis list stored at one key; head of the Lean list is the left end. -/
abbrev RList := List Str

/-- redis RPUSH: append an element at the right end of the list. -/
def rpush (l : RList) (x : Str) : RList := l ++ [x]

/-- redis LLEN: length of the list. -/
def llen (l : RList) : Nat := l.length

/-- `_Structure.size`: returns the redis LLEN of the backing list. -/
def Queue.size : RList → Nat := llen

/-- `_Structure.put`: `self.db.rpush(self.key, item)` - push on the right end. -/
def Queue.put : RList → Str → RList := rpush

/-- `Queue.get`: blocking branch uses BLPOP (pop left, returning a key/value
pair), non-blocking branch uses LPOP with the Python truthiness check
`if item != nil and item` which maps an empty string to `None`. -/
def Queue.get (block : Bool) (l : RList) : Option Str × RList :=
  match l with
  | [] => (none, [])
  | x :: xs => (if block then some x else if x = [] then none else some x, xs)

/-- `_Structure.size` for stacks (same backing list operation). -/
def Stack.size : RList → Nat := llen

/-- `_Structure.put` inherited by `Stack`: RPUSH on the right end. -/
def Stack.put : RList → Str → RList := rpush

/-- `Stack.get`: blocking branch uses BRPOP (pop right), non-blocking branch
uses RPOP with the same truthiness check as the queue. -/
def Stack.get (block : Bool) (l : RList) : Option Str × RList :=
  match l.reverse with
  | [] => (none, [])
  | x :: xs => (if block then some x else if x = [] then none else some x, xs.reverse)

/-- Perform `n` successive gets with the given get operation, collecting the
returned items (test harness for the order properties). -/
def getN (g : RList → Option Str × RList) : Nat → RList → List (Option Str) × RList
  | 0, l => ([], l)
  | n + 1, l =>
    let p := g l
    let q := getN g n p.2
    (p.1 :: q.1, q.2)

/-! ### Decimal strings

redis stores an integer pushed by `rpush` as its decimal string form, and
`int(s)` parses a decimal string.  The conversions below model the Python
`str`/`int` pair on integers. -/

/-- Little-endian base-10 digit list of `n`, computed with explicit fuel so
that the definition is structurally recursive (`[]` for `0`). -/
def natDigitsAux : Nat → Nat → List Nat
  | _, 0 => []
  | 0, _ + 1 => []
  | fuel + 1, n + 1 => ((n + 1) % 10) :: natDigitsAux fuel ((n + 1) / 10)

/-- Little-endian base-10 digits of `n`. -/
def natDigits (n : Nat) : List Nat := natDigitsAux n n

/-- Value of a little-endian base-10 digit list. -/
def ofDigits : List Nat → Nat
  | [] => 0
  | d :: ds => d + 10 * ofDigits ds

/-- The character for a decimal digit. -/
def digitChar : Nat → Char
  | 0 => '0' | 1 => '1' | 2 => '2' | 3 => '3' | 4 => '4'
  | 5 => '5' | 6 => '6' | 7 => '7' | 8 => '8' | 9 => '9'
  | _ => '0'

/-- The decimal digit denoted by a character, if any. -/
def charDigit? (c : Char) : Option Nat :=
  if c = '0' then some 0 else if c = '1' then some 1
  else if c = '2' then some 2 else if c = '3' then some 3
  else if c = '4' then some 4 else if c = '5' then some 5
  else if c = '6' then some 6 else if c = '7' then some 7
  else if c = '8' then some 8 else if c = '9' then some 9
  else none

/-- Python `str` on a natural number: its decimal string. -/
def natToDec (n : Nat) : Str :=
  if n = 0 then ['0'] else (natDigits n).reverse.map digitChar

/-- Accumulator pass of decimal parsing. -/
def decToNatAux (acc : Nat) : Str → Option Nat
  | [] => some acc
  | c :: cs =>
    match charDigit? c with
    | some d => decToNatAux (10 * acc + d) cs
    | none => none

/-- Parse a non-empty all-digit string as a natural number. -/
def decToNat? (cs : Str) : Option Nat :=
  if cs = [] then none else decToNatAux 0 cs

/-- Python `str` on an integer. -/
def intToDec (i : Int) : Str :=
  if i < 0 then '-' :: natToDec i.natAbs else natToDec i.toNat

/-- Python `int` on a decimal string (with optional leading minus sign). -/
def intParse? : Str → Option Int
  | [] => none
  | c :: cs =>
    if c = '-' then (decToNat? cs).map (fun (n : Nat) => -(n : Int))
    else (decToNat? (c :: cs)).map (fun (n : Nat) => (n : Int))

/-! ### Python values and the two encoders

Items handled by the encoders are modelled by `PyVal`, covering the scalar
Python values the subsystem stores (None, booleans, integers, strings). -/

/-- A scalar Python value. -/
inductive PyVal where
  | noneV : PyVal
  | boolV : Bool → PyVal
  | intV : Int → PyVal
  | strV : Str → PyVal
deriving DecidableEq

/-- Python `str` on a `PyVal`. -/
def pyStr : PyVal → Str
  | .noneV => "None".data
  | .boolV true => "True".data
  | .boolV false => "False".data
  | .intV i => intToDec i
  | .strV s => s

/-- Model of Python `eval` restricted to the strings `str` produces for the
values of `PyVal`: the keywords `None`, `True`, `False` evaluate to
themselves, a decimal numeral evaluates to the integer, and any other
string (in particular the bare text of a stored string, which `eval` treats
as a name and fails on with a NameError) fails. -/
def pyEvalLit? (cs : Str) : Option PyVal :=
  if cs = "None".data then some .noneV
  else if cs = "True".data then some (.boolV true)
  else if cs = "False".data then some (.boolV false)
  else (intParse? cs).map PyVal.intV

/-- JSON string escaping as produced by `json.dumps` on the printable ASCII
characters: quote and backslash are escaped, the rest map to themselves. -/
def jsonEscapeChar (c : Char) : Str :=
  if c = '"' then ['\\', '"'] else if c = '\\' then ['\\', '\\'] else [c]

/-- Model of `json.dumps` on scalar values. -/
def jsonDumps : PyVal → Str
  | .noneV => "null".data
  | .boolV true => "true".data
  | .boolV false => "false".data
  | .intV i => intToDec i
  | .strV s => '"' :: (s.flatMap jsonEscapeChar ++ ['"'])

/-- Parse the remainder of a JSON string literal (after the opening quote),
up to and including the closing quote which must end the input. -/
def parseJStr : Str → Option Str
  | [] => none
  | c :: rest =>
    if c = '"' then (if rest = [] then some [] else none)
    else if c = '\\' then
      match rest with
      | [] => none
      | d :: rest2 =>
        if d = '"' ∨ d = '\\' then (parseJStr rest2).map (fun t => d :: t)
        else none
    else (parseJStr rest).map (fun t => c :: t)

/-- Model of `json.loads` on the strings `json.dumps` produces for scalar
values: the three keywords, a string literal, or an integer numeral. -/
def jsonLoads? (cs : Str) : Option PyVal :=
  if cs = "null".data then some .noneV
  else if cs = "true".data then some (.boolV true)
  else if cs = "false".data then some (.boolV false)
  else
    match cs with
    | [] => none
    | c :: rest =>
      if c = '"' then (parseJStr rest).map PyVal.strV
      else (intParse? (c :: rest)).map PyVal.intV

/-- Model of the external zlib codec.  zlib is an external collaborator;
the subsystem relies only on its lossless contract
`decompress (compress s) = s`, modelled here by an explicit invertible
coding. -/
def zlibCompress (cs : Str) : Str := cs.reverse

/-- Inverse of `zlibCompress` (see its docstring). -/
def zlibDecompress (cs : Str) : Str := cs.reverse

/-- An encoder as required by `EncoderDecorator`: an `encode` and a `decode`
method, either of which may fail (raise). -/
structure Encoder where
  encode : PyVal → Option Str
  decode : Str → Option PyVal

/-- `JSONEncoder`: encode is `json.dumps`, decode is `json.loads`. -/
def JSONEncoder : Encoder :=
  { encode := fun x => some (jsonDumps x), decode := jsonLoads? }

/-- `ZlibEncoder`: encode is `zlib.compress(str(item))`, decode is
`eval(zlib.decompress(item))`. -/
def ZlibEncoder : Encoder :=
  { encode := fun x => some (zlibCompress (pyStr x)),
    decode := fun cs => pyEvalLit? (zlibDecompress cs) }

/-- The values on which the `jsonDumps`/`jsonLoads?` model is faithful to
the Python library: scalars whose string content is printable ASCII. -/
def jsonRepresentable : PyVal → Prop
  | .strV s => ∀ c ∈ s, 32 ≤ c.toNat ∧ c.toNat ≤ 126
  | _ => True

instance : DecidablePred jsonRepresentable := by
  intro x
  cases x with
  | strV s => exact List.decidableBAll _ s
  | noneV => exact inferInstanceAs (Decidable True)
  | boolV b => exact inferInstanceAs (Decidable True)
  | intV i => exact inferInstanceAs (Decidable True)

/-- The values the zlib encoder can reproduce: those whose Python string
form evaluates back to the value (None, booleans and integers; a stored
string comes back as a bare name and does not round-trip through eval). -/
def zlibRepresentable : PyVal → Prop
  | .strV _ => False
  | _ => True

instance : DecidablePred zlibRepresentable := by
  intro x
  cases x with
  | strV s => exact inferInstanceAs (Decidable False)
  | noneV => exact inferInstanceAs (Decidable True)
  | boolV b => exact inferInstanceAs (Decidable True)
  | intV i => exact inferInstanceAs (Decidable True)

/-- Round-trip property of an encoder at a value. -/
def Encoder.roundtrips (E : Encoder) (x : PyVal) : Prop :=
  ∃ e, E.encode x = some e ∧ E.decode e = some x

/-! ### The encoder decorator -/

/-- The operations a concrete structure exposes to a wrapper (the methods
of `_Structure` used by `EncoderDecorator` and `MultiStruct`). -/
structure StructOps where
  put : RList → Str → RList
  get : RList → Option Str × RList
  size : RList → Nat

/-- A `Queue` seen through the structure interface (blocking get). -/
def queueOps : StructOps :=
  { put := Queue.put, get := Queue.get true, size := Queue.size }

/-- A `Stack` seen through the structure interface (blocking get). -/
def stackOps : StructOps :=
  { put := Stack.put, get := Stack.get true, size := Stack.size }

/-- The exceptions `EncoderDecorator` raises, carrying the offending item
(on encode failure) or the raw stored value (on decode failure). -/
inductive DecoratorError where
  | encodingError : PyVal → DecoratorError
  | decodingError : Str → DecoratorError
deriving DecidableEq

/-- `EncoderDecorator.put`: encode the item; on encoder failure raise an
exception wrapping the item without touching the wrapped structure; on
success delegate the encoded item to the wrapped structure. -/
def EncoderDecorator.put (S : StructOps) (E : Encoder) (item : PyVal)
    (st : RList) : Except DecoratorError RList :=
  match E.encode item with
  | none => .error (.encodingError item)
  | some e => .ok (S.put st e)

/-- `EncoderDecorator.get`: delegate to the wrapped structure; a `None`
result is returned as is; otherwise decode, raising an exception wrapping
the raw value on decoder failure. -/
def EncoderDecorator.get (S : StructOps) (E : Encoder)
    (st : RList) : Except DecoratorError (Option PyVal × RList) :=
  let r := S.get st
  match r.1 with
  | none => .ok (none, r.2)
  | some raw =>
    match E.decode raw with
    | none => .error (.decodingError raw)
    | some d => .ok (some d, r.2)

/-- `EncoderDecorator.size`: pure delegation. -/
def EncoderDecorator.size (S : StructOps) (st : RList) : Nat := S.size st

/-- An encoder whose encode and decode always fail; used to exercise the
failure branches of the decorator. -/
def noEncoder : Encoder := { encode := fun _ => none, decode := fun _ => none }

/-! ### MultiStruct -/

/-- The state of a `MultiStruct`: the optional operations (order) structure
`__opstruct` and the data structures `__structures`. -/
structure MultiState where
  opstruct : Option RList
  structures : List RList
deriving DecidableEq

/-- The failures `MultiStruct` can raise: the assertion on the put index,
the assertion on the get index, and the `int(...)` failure in get when the
order structure yields nothing parseable. -/
inductive MultiError where
  | putIndex : Int → MultiError
  | getIndex : Int → MultiError
  | getParse : MultiError
deriving DecidableEq

/-- The construction failures of `MultiStruct.__init__`: mixed child kinds,
no kind at all, too few structures in preserving mode, too few structures
in load-balancing mode. -/
inductive ConfigError where
  | mixedKinds : String → String → ConfigError
  | noKind : ConfigError
  | tooFewPreserve : ConfigError
  | tooFew : ConfigError
deriving DecidableEq

/-- The type-check loop of `MultiStruct.__init__`: every later kind name
must equal the first. -/
def checkSameKind (t : String) : List String → Except ConfigError String
  | [] => .ok t
  | u :: us => if t = u then checkSameKind t us else .error (.mixedKinds t u)

/-- Kind validation over the whole structure list: an empty list has no
kind, otherwise all kinds must match the first. -/
def firstKindCheck : List String → Except ConfigError String
  | [] => .error .noKind
  | t :: ts => checkSameKind t ts

/-- `MultiStruct.__init__` on a list of (kind name, backing list) pairs:
in preserving mode validate the kinds, require more than 2 structures, and
set the first aside as the order structure; in load-balancing mode require
more than 1 structure. -/
def MultiStruct.init (structs : List (String × RList)) (preserve : Bool) :
    Except ConfigError MultiState :=
  if preserve then
    match firstKindCheck (structs.map Prod.fst) with
    | .error e => .error e
    | .ok _ =>
      if structs.length > 2 then
        .ok { opstruct := some ((structs.headD ("", [])).2),
              structures := structs.tail.map Prod.snd }
      else .error .tooFewPreserve
  else
    if structs.length > 1 then
      .ok { opstruct := none, structures := structs.map Prod.snd }
    else .error .tooFew

/-- `MultiStruct.size`: the sum of the sizes of the data structures (the
order structure is not included). -/
def MultiStruct.size (K : StructOps) (st : MultiState) : Nat :=
  (st.structures.map K.size).sum

/-- `MultiStruct.put`: hash the string form of the item, reduce modulo the
number of data structures, check the index assertion, record the index in
the order structure when present (stored as its decimal string), then put
the item in the selected data structure. -/
def MultiStruct.put (K : StructOps) (hashf : Str → Int) (st : MultiState)
    (item : Str) : Except MultiError MultiState :=
  let h := hashf item
  let k := st.structures.length
  let i := h % (k : Int)
  if 0 ≤ i ∧ i < (k : Int) then
    let st1 : MultiState :=
      match st.opstruct with
      | some o => { st with opstruct := some (K.put o (intToDec i)) }
      | none => st
    .ok { st1 with
          structures := st1.structures.set i.toNat
            (K.put (st1.structures.getD i.toNat []) item) }
  else .error (.putIndex i)

/-- `MultiStruct.get`: with an order structure, get and parse the recorded
index (`int(None)` and `int(garbage)` raise), check the index assertion and
delegate to that data structure; without one, delegate to the structure
chosen by `random.choice`, modelled by the oracle index `pick`. -/
def MultiStruct.get (K : StructOps) (pick : Nat) (st : MultiState) :
    Except MultiError (Option Str × MultiState) :=
  match st.opstruct with
  | some o =>
    match K.get o with
    | (none, _) => .error .getParse
    | (some s, o') =>
      match intParse? s with
      | none => .error .getParse
      | some i =>
        if 0 ≤ i ∧ i < (st.structures.length : Int) then
          let r := K.get (st.structures.getD i.toNat [])
          .ok (r.1, { opstruct := some o',
                      structures := st.structures.set i.toNat r.2 })
        else .error (.getIndex i)
  | none =>
    let idx := pick % st.structures.length
    let r := K.get (st.structures.getD idx [])
    .ok (r.1, { st with structures := st.structures.set idx r.2 })

/-- Repeated `MultiStruct.put` of a list of items. -/
def MultiStruct.putAll (K : StructOps) (hashf : Str → Int) :
    List Str → MultiState → Except MultiError MultiState
  | [], st => .ok st
  | x :: xs, st =>
    match MultiStruct.put K hashf st x with
    | .ok st' => MultiStruct.putAll K hashf xs st'
    | .error e => .error e

/-! ### Helper lemmas -/

theorem foldl_rpush (xs : List Str) : ∀ l, List.foldl rpush l xs = l ++ xs := by
  induction xs with
  | nil => simp
  | cons x xs ih => intro l; rw [List.foldl_cons, ih]; simp [rpush]

theorem getN_queue (xs : List Str) :
    getN (Queue.get true) xs.length xs = (xs.map some, []) := by
  induction xs with
  | nil => rfl
  | cons x xs ih => simp [getN, Queue.get, ih]

theorem getN_stack (xs : List Str) :
    getN (Stack.get true) xs.length xs = (xs.reverse.map some, []) := by
  induction xs using List.reverseRecOn with
  | nil => rfl
  | append_singleton xs x ih =>
    have hlen : (xs ++ [x]).length = xs.length + 1 := by simp
    rw [hlen]
    simp [getN, Stack.get, List.reverse_append, ih]

theorem ofDigits_natDigitsAux : ∀ fuel n, n ≤ fuel →
    ofDigits (natDigitsAux fuel n) = n := by
  intro fuel
  induction fuel with
  | zero =>
    intro n hn
    interval_cases n
    rfl
  | succ fuel ih =>
    intro n hn
    match n with
    | 0 => rfl
    | m + 1 =>
      have hdiv : (m + 1) / 10 ≤ fuel := by
        have := Nat.div_lt_self (Nat.succ_pos m) (by omega : 1 < 10)
        omega
      rw [natDigitsAux, ofDigits, ih _ hdiv]
      omega

theorem natDigitsAux_lt : ∀ fuel n d, d ∈ natDigitsAux fuel n → d < 10 := by
  intro fuel
  induction fuel with
  | zero =>
    intro n d hd
    match n with
    | 0 => simp [natDigitsAux] at hd
    | m + 1 => simp [natDigitsAux] at hd
  | succ fuel ih =>
    intro n d hd
    match n with
    | 0 => simp [natDigitsAux] at hd
    | m + 1 =>
      rw [natDigitsAux] at hd
      rcases List.mem_cons.mp hd with h | h
      · subst h; exact Nat.mod_lt _ (by omega)
      · exact ih _ _ h

theorem charDigit_digitChar {d : Nat} (h : d < 10) :
    charDigit? (digitChar d) = some d := by
  interval_cases d <;> rfl

theorem decToNatAux_map (ds : List Nat) : ∀ acc, (∀ d ∈ ds, d < 10) →
    decToNatAux acc (ds.map digitChar) =
      some (ds.foldl (fun a d => 10 * a + d) acc) := by
  induction ds with
  | nil => intro acc _; rfl
  | cons d ds ih =>
    intro acc hds
    have hd : d < 10 := hds d (List.mem_cons_self d ds)
    rw [List.map_cons, decToNatAux, charDigit_digitChar hd, List.foldl_cons]
    exact ih _ (fun e he => hds e (List.mem_cons_of_mem d he))

theorem foldr_ofDigits (l : List Nat) : ∀ acc,
    l.foldr (fun d a => 10 * a + d) acc = acc * 10 ^ l.length + ofDigits l := by
  induction l with
  | nil => intro acc; simp [ofDigits]
  | cons d ds ih =>
    intro acc
    rw [List.foldr_cons, ih, ofDigits]
    simp [pow_succ]
    ring

theorem decToNat_natToDec (n : Nat) : decToNat? (natToDec n) = some n := by
  by_cases h : n = 0
  · subst h; rfl
  · rw [natToDec, if_neg h]
    obtain ⟨m, rfl⟩ : ∃ m, n = m + 1 := ⟨n - 1, by omega⟩
    have hcons : natDigits (m + 1) =
        ((m + 1) % 10) :: natDigitsAux m ((m + 1) / 10) := rfl
    have hlt : ∀ d ∈ (natDigits (m + 1)).reverse, d < 10 := by
      intro d hd
      exact natDigitsAux_lt _ _ d (List.mem_reverse.mp hd)
    have hne : (natDigits (m + 1)).reverse.map digitChar ≠ [] := by
      simp [hcons]
    rw [decToNat?, if_neg hne]
    rw [decToNatAux_map _ _ hlt, List.foldl_reverse]
    have := foldr_ofDigits (natDigits (m + 1)) 0
    simp only [Nat.zero_mul] at this
    rw [this, Nat.zero_add, natDigits, ofDigits_natDigitsAux _ _ (Nat.le_refl _)]

theorem digitChar_ne_minus (d : Nat) : digitChar d ≠ '-' := by
  unfold digitChar; split <;> decide

theorem digitChar_ne_quote (d : Nat) : digitChar d ≠ '"' := by
  unfold digitChar; split <;> decide

theorem natToDec_head (n : Nat) :
    ∃ d cs, d < 10 ∧ natToDec n = digitChar d :: cs := by
  by_cases h : n = 0
  · exact ⟨0, [], by omega, by subst h; rfl⟩
  · rw [natToDec, if_neg h]
    obtain ⟨m, rfl⟩ : ∃ m, n = m + 1 := ⟨n - 1, by omega⟩
    cases hrev : (natDigits (m + 1)).reverse with
    | nil =>
      exfalso
      have := congrArg List.length hrev
      rw [List.length_reverse] at this
      have hcons : natDigits (m + 1) =
          ((m + 1) % 10) :: natDigitsAux m ((m + 1) / 10) := rfl
      rw [hcons] at this
      simp at this
    | cons a t =>
      have ha : a ∈ (natDigits (m + 1)).reverse := by
        rw [hrev]; exact List.mem_cons_self a t
      exact ⟨a, t.map digitChar,
        natDigitsAux_lt _ _ a (List.mem_reverse.mp ha), by simp⟩

theorem intParse_intToDec (i : Int) : intParse? (intToDec i) = some i := by
  rw [intToDec]
  by_cases hi : i < 0
  · rw [if_pos hi]
    have h1 : intParse? ('-' :: natToDec i.natAbs)
        = (decToNat? (natToDec i.natAbs)).map (fun (n : Nat) => -(n : Int)) := by
      simp [intParse?]
    rw [h1, decToNat_natToDec]
    have h2 : -((i.natAbs : Nat) : Int) = i := by omega
    simp only [Option.map_some']
    exact congrArg some h2
  · rw [if_neg hi]
    obtain ⟨d, cs, hd, hcons⟩ := natToDec_head i.toNat
    have h1 : intParse? (digitChar d :: cs)
        = (decToNat? (digitChar d :: cs)).map (fun (n : Nat) => (n : Int)) := by
      simp [intParse?, digitChar_ne_minus d]
    rw [hcons, h1, ← hcons, decToNat_natToDec]
    have h2 : ((i.toNat : Nat) : Int) = i := by omega
    simp only [Option.map_some']
    exact congrArg some h2

theorem parseJStr_cons (c : Char) (rest : Str) :
    parseJStr (c :: rest) =
      if c = '"' then (if rest = [] then some [] else none)
      else if c = '\\' then
        (match rest with
        | [] => none
        | d :: rest2 =>
          if d = '"' ∨ d = '\\' then (parseJStr rest2).map (fun t => d :: t)
          else none)
      else (parseJStr rest).map (fun t => c :: t) := by
  rw [parseJStr.eq_def]
  rfl

theorem parseJStr_roundtrip (cs : Str) :
    parseJStr (cs.flatMap jsonEscapeChar ++ ['"']) = some cs := by
  induction cs with
  | nil => rfl
  | cons c cs ih =>
    rw [List.flatMap_cons]
    by_cases hq : c = '"'
    · subst hq
      rw [show jsonEscapeChar '"' = ['\\', '"'] from rfl, List.cons_append,
        List.cons_append, parseJStr_cons, if_neg (by decide : ¬('\\' = '"')),
        if_pos rfl]
      show (if ('"' = '"' ∨ '"' = '\\') then
        (parseJStr (cs.flatMap jsonEscapeChar ++ ['"'])).map (fun t => '"' :: t)
        else none) = some ('"' :: cs)
      rw [if_pos (Or.inl rfl), ih]
      rfl
    · by_cases hb : c = '\\'
      · subst hb
        rw [show jsonEscapeChar '\\' = ['\\', '\\'] from rfl, List.cons_append,
          List.cons_append, parseJStr_cons, if_neg (by decide : ¬('\\' = '"')),
          if_pos rfl]
        show (if ('\\' = '"' ∨ '\\' = '\\') then
          (parseJStr (cs.flatMap jsonEscapeChar ++ ['"'])).map (fun t => '\\' :: t)
          else none) = some ('\\' :: cs)
        rw [if_pos (Or.inr rfl), ih]
        rfl
      · rw [show jsonEscapeChar c = [c] from by simp [jsonEscapeChar, hq, hb]]
        simp only [List.cons_append, List.nil_append]
        rw [parseJStr_cons, if_neg hq, if_neg hb, ih]
        rfl

theorem intToDec_ne_of_unparseable {i : Int} {s : Str} (hs : intParse? s = none) :
    intToDec i ≠ s := by
  intro h
  have hp := intParse_intToDec i
  rw [h, hs] at hp
  exact Option.noConfusion hp

theorem intToDec_cons (i : Int) : ∃ c cs, intToDec i = c :: cs ∧ c ≠ '"' := by
  rw [intToDec]
  by_cases hi : i < 0
  · rw [if_pos hi]
    exact ⟨'-', natToDec i.natAbs, rfl, by decide⟩
  · rw [if_neg hi]
    obtain ⟨d, cs, hd, hcons⟩ := natToDec_head i.toNat
    exact ⟨digitChar d, cs, hcons, digitChar_ne_quote d⟩

theorem cons_ne_of_head_ne {a b : Char} (t u : List Char) (h : a ≠ b) :
    (a :: t) ≠ b :: u := fun he => h (List.cons.inj he).1

theorem jsonLoads_dumps (x : PyVal) : jsonLoads? (jsonDumps x) = some x := by
  cases x with
  | noneV => rfl
  | boolV b => cases b <;> rfl
  | intV i =>
    have hp := intParse_intToDec i
    have h1 : intToDec i ≠ "null".data :=
      intToDec_ne_of_unparseable (by decide)
    have h2 : intToDec i ≠ "true".data :=
      intToDec_ne_of_unparseable (by decide)
    have h3 : intToDec i ≠ "false".data :=
      intToDec_ne_of_unparseable (by decide)
    show jsonLoads? (intToDec i) = some (.intV i)
    unfold jsonLoads?
    rw [if_neg h1, if_neg h2, if_neg h3]
    obtain ⟨c, cs2, hcons, hcq⟩ := intToDec_cons i
    rw [hcons]
    show (if c = '"' then (parseJStr cs2).map PyVal.strV
      else (intParse? (c :: cs2)).map PyVal.intV) = some (.intV i)
    rw [if_neg hcq, ← hcons, hp]
    rfl
  | strV s =>
    have h1 : ('"' :: (s.flatMap jsonEscapeChar ++ ['"'])) ≠ "null".data :=
      cons_ne_of_head_ne _ _ (by decide)
    have h2 : ('"' :: (s.flatMap jsonEscapeChar ++ ['"'])) ≠ "true".data :=
      cons_ne_of_head_ne _ _ (by decide)
    have h3 : ('"' :: (s.flatMap jsonEscapeChar ++ ['"'])) ≠ "false".data :=
      cons_ne_of_head_ne _ _ (by decide)
    show jsonLoads? ('"' :: (s.flatMap jsonEscapeChar ++ ['"'])) = some (.strV s)
    unfold jsonLoads?
    rw [if_neg h1, if_neg h2, if_neg h3]
    show (if '"' = '"' then (parseJStr (s.flatMap jsonEscapeChar ++ ['"'])).map PyVal.strV
      else (intParse? ('"' :: (s.flatMap jsonEscapeChar ++ ['"']))).map PyVal.intV)
      = some (.strV s)
    rw [if_pos rfl, parseJStr_roundtrip]
    rfl

theorem zlib_lossless (s : Str) : zlibDecompress (zlibCompress s) = s := by
  simp [zlibCompress, zlibDecompress]

theorem pyEval_pyStr (x : PyVal) (hx : zlibRepresentable x) :
    pyEvalLit? (pyStr x) = some x := by
  cases x with
  | noneV => rfl
  | boolV b => cases b <;> rfl
  | strV s => exact absurd hx (by simp [zlibRepresentable])
  | intV i =>
    have hp := intParse_intToDec i
    have h1 : intToDec i ≠ "None".data :=
      intToDec_ne_of_unparseable (by decide)
    have h2 : intToDec i ≠ "True".data :=
      intToDec_ne_of_unparseable (by decide)
    have h3 : intToDec i ≠ "False".data :=
      intToDec_ne_of_unparseable (by decide)
    show pyEvalLit? (intToDec i) = some (.intV i)
    unfold pyEvalLit?
    rw [if_neg h1, if_neg h2, if_neg h3, hp]
    rfl

theorem flatMap_esc_length (s : Str) :
    s.length ≤ (s.flatMap jsonEscapeChar).length := by
  induction s with
  | nil => simp
  | cons c cs ih =>
    rw [List.flatMap_cons, List.length_append, List.length_cons]
    have h1 : 1 ≤ (jsonEscapeChar c).length := by
      unfold jsonEscapeChar
      split
      · simp
      · split <;> simp
    omega

/-! ### Claim theorems: Queue, Stack, encoders, decorator -/

/-- Claim C1: for every sequence of items put (in order) on a fresh Queue, a
subsequent sequence of gets returns the items in the same order; `put`
pushes onto the right end of the backing list and `get` pops from the left
end. -/
theorem queue_fifo :
    (∀ l x, Queue.put l x = l ++ [x]) ∧
    (∀ x xs, Queue.get true (x :: xs) = (some x, xs)) ∧
    (∀ xs : List Str,
      getN (Queue.get true) xs.length (List.foldl Queue.put [] xs)
        = (xs.map some, [])) := by
  refine ⟨fun l x => rfl, fun x xs => rfl, fun xs => ?_⟩
  have h : List.foldl Queue.put [] xs = xs := by
    have h2 := foldl_rpush xs []
    rw [List.nil_append] at h2
    exact h2
  rw [h]
  exact getN_queue xs

/-- Claim C2: for every sequence of items put (in order) on a fresh Stack, a
subsequent sequence of gets returns the items in reverse order; `put` pushes
onto the right end of the backing list and `get` pops from the right end. -/
theorem stack_lifo :
    (∀ l x, Stack.put l x = l ++ [x]) ∧
    (∀ x xs, Stack.get true (xs ++ [x]) = (some x, xs)) ∧
    (∀ xs : List Str,
      getN (Stack.get true) xs.length (List.foldl Stack.put [] xs)
        = (xs.reverse.map some, [])) := by
  refine ⟨fun l x => rfl, fun x xs => ?_, fun xs => ?_⟩
  · simp [Stack.get, List.reverse_append]
  · have h : List.foldl Stack.put [] xs = xs := by
      have h2 := foldl_rpush xs []
      rw [List.nil_append] at h2
      exact h2
    rw [h]
    exact getN_stack xs

/-- Claim C3: for both encoders provided by the subsystem, every item
representable by that encoder satisfies the round-trip law
decode (encode x) = x. -/
theorem encoder_roundtrip (x : PyVal) :
    (jsonRepresentable x → JSONEncoder.roundtrips x) ∧
    (zlibRepresentable x → ZlibEncoder.roundtrips x) := by
  constructor
  · intro _
    exact ⟨jsonDumps x, rfl, jsonLoads_dumps x⟩
  · intro hx
    refine ⟨zlibCompress (pyStr x), rfl, ?_⟩
    show pyEvalLit? (zlibDecompress (zlibCompress (pyStr x))) = some x
    rw [zlib_lossless, pyEval_pyStr x hx]

theorem encoder_roundtrip_witness :
    (jsonRepresentable (.strV "monday".data) ∧
      JSONEncoder.roundtrips (.strV "monday".data)) ∧
    (zlibRepresentable (.intV (-7)) ∧ ZlibEncoder.roundtrips (.intV (-7))) :=
  ⟨⟨by decide, (encoder_roundtrip (.strV "monday".data)).1 (by decide)⟩,
   ⟨by decide, (encoder_roundtrip (.intV (-7))).2 (by decide)⟩⟩

/-- Claim C4: putting a representable item through an EncoderDecorator
wrapping a fresh structure stores exactly the encoded form in the wrapped
structure (for a string item the encoded form differs from the raw string
form), and a get through the same decorator returns the original item. -/
theorem encoding_transparency (x : PyVal) (hx : jsonRepresentable x) :
    EncoderDecorator.put queueOps JSONEncoder x [] = .ok [jsonDumps x] ∧
    EncoderDecorator.get queueOps JSONEncoder [jsonDumps x] = .ok (some x, []) ∧
    (∀ s, x = .strV s → jsonDumps x ≠ pyStr x) := by
  refine ⟨rfl, ?_, ?_⟩
  · show EncoderDecorator.get queueOps JSONEncoder [jsonDumps x] = .ok (some x, [])
    unfold EncoderDecorator.get
    show (match JSONEncoder.decode (jsonDumps x) with
      | none => Except.error (DecoratorError.decodingError (jsonDumps x))
      | some d => Except.ok (some d, ([] : RList))) = Except.ok (some x, [])
    rw [show JSONEncoder.decode (jsonDumps x) = some x from jsonLoads_dumps x]
  · intro s hxs
    subst hxs
    intro h
    have hlen := congrArg List.length h
    rw [show jsonDumps (.strV s) = '"' :: (s.flatMap jsonEscapeChar ++ ['"'])
      from rfl, show pyStr (.strV s) = s from rfl] at hlen
    rw [List.length_cons, List.length_append,
      show (['"'] : Str).length = 1 from rfl] at hlen
    have h1 := flatMap_esc_length s
    omega

theorem encoding_transparency_witness :
    EncoderDecorator.put queueOps JSONEncoder (.strV "x".data) []
      = .ok [jsonDumps (.strV "x".data)] ∧
    EncoderDecorator.get queueOps JSONEncoder [jsonDumps (.strV "x".data)]
      = .ok (some (.strV "x".data), []) ∧
    (∀ s, PyVal.strV "x".data = .strV s →
      jsonDumps (.strV "x".data) ≠ pyStr (.strV "x".data)) :=
  encoding_transparency (.strV "x".data) (by decide)

/-- Claim C5: for any encoder and any wrapped structure, a put whose
encoding fails signals an error carrying the offending item and produces no
new state for the wrapped structure, while a put whose encoding succeeds
delegates the encoded item to the wrapped structure's put. -/
theorem decorator_put_behavior (S : StructOps) (E : Encoder) (x : PyVal)
    (st : RList) :
    (E.encode x = none →
      EncoderDecorator.put S E x st = .error (.encodingError x)) ∧
    (∀ e, E.encode x = some e →
      EncoderDecorator.put S E x st = .ok (S.put st e)) := by
  constructor
  · intro h
    unfold EncoderDecorator.put
    rw [h]
  · intro e h
    unfold EncoderDecorator.put
    rw [h]

theorem decorator_put_behavior_witness :
    EncoderDecorator.put queueOps noEncoder (.intV 0) []
      = .error (.encodingError (.intV 0)) ∧
    EncoderDecorator.put queueOps JSONEncoder (.intV 0) []
      = .ok (queueOps.put [] (jsonDumps (.intV 0))) :=
  ⟨(decorator_put_behavior queueOps noEncoder (.intV 0) []).1 rfl,
   (decorator_put_behavior queueOps JSONEncoder (.intV 0) []).2
     (jsonDumps (.intV 0)) rfl⟩

/-- Claim C6: the decorator's get delegates to the wrapped structure's get;
an absent result is returned as absent without decoding; a present result
whose decoding fails signals an error carrying the raw encoded value; a
present result whose decoding succeeds is returned decoded. -/
theorem decorator_get_behavior (S : StructOps) (E : Encoder) (st st' : RList) :
    (S.get st = (none, st') →
      EncoderDecorator.get S E st = .ok (none, st')) ∧
    (∀ raw, S.get st = (some raw, st') →
      (E.decode raw = none →
        EncoderDecorator.get S E st = .error (.decodingError raw)) ∧
      (∀ d, E.decode raw = some d →
        EncoderDecorator.get S E st = .ok (some d, st'))) := by
  constructor
  · intro h
    unfold EncoderDecorator.get
    rw [h]
  · intro raw h
    constructor
    · intro hd
      unfold EncoderDecorator.get
      rw [h]
      show (match E.decode raw with
        | none => Except.error (DecoratorError.decodingError raw)
        | some d => .ok (some d, st')) = .error (.decodingError raw)
      rw [hd]
    · intro d hd
      unfold EncoderDecorator.get
      rw [h]
      show (match E.decode raw with
        | none => Except.error (DecoratorError.decodingError raw)
        | some d => .ok (some d, st')) = .ok (some d, st')
      rw [hd]

theorem decorator_get_behavior_witness :
    EncoderDecorator.get queueOps JSONEncoder [] = .ok (none, []) ∧
    EncoderDecorator.get queueOps noEncoder ["5".data]
      = .error (.decodingError "5".data) ∧
    EncoderDecorator.get queueOps JSONEncoder ["5".data]
      = .ok (some (.intV 5), []) :=
  ⟨(decorator_get_behavior queueOps JSONEncoder [] []).1 rfl,
   ((decorator_get_behavior queueOps noEncoder ["5".data] []).2 "5".data rfl).1 rfl,
   ((decorator_get_behavior queueOps JSONEncoder ["5".data] []).2 "5".data rfl).2
     (.intV 5) (by decide)⟩

/-! ### MultiStruct lemmas -/

theorem emod_index_range (h : Int) (k : Nat) (hk : 0 < k) :
    0 ≤ h % (k : Int) ∧ h % (k : Int) < (k : Int) :=
  ⟨Int.emod_nonneg h (by omega), Int.emod_lt_of_pos h (by omega)⟩

theorem getD_replicate (k i : Nat) :
    (List.replicate k ([] : RList)).getD i [] = [] := by
  simp [List.getD]

theorem getD_set_self (l : List RList) : ∀ (i : Nat) (v : RList),
    i < l.length → (l.set i v).getD i [] = v := by
  induction l with
  | nil => intro i v h; simp at h
  | cons c cs ih =>
    intro i v h
    cases i with
    | zero => rfl
    | succ i =>
      rw [List.set_cons_succ, List.getD_cons_succ]
      exact ih i v (by simpa using h)

theorem sum_size_set (l : List RList) : ∀ (i : Nat) (x : Str),
    i < l.length →
    ((l.set i (queueOps.put (l.getD i []) x)).map queueOps.size).sum
      = (l.map queueOps.size).sum + 1 := by
  induction l with
  | nil => intro i x h; simp at h
  | cons c cs ih =>
    intro i x h
    cases i with
    | zero =>
      rw [List.set_cons_zero, List.getD_cons_zero, List.map_cons, List.map_cons,
        List.sum_cons, List.sum_cons]
      have hc : queueOps.size (queueOps.put c x) = queueOps.size c + 1 := by
        show (c ++ [x]).length = c.length + 1
        simp
      omega
    | succ i =>
      rw [List.set_cons_succ, List.getD_cons_succ, List.map_cons, List.map_cons,
        List.sum_cons, List.sum_cons, ih i x (by simpa using h)]
      omega

theorem multi_put_ok (K : StructOps) (hashf : Str → Int) (st : MultiState)
    (item : Str) (hk : 0 < st.structures.length) :
    MultiStruct.put K hashf st item =
      .ok { opstruct := st.opstruct.map
              (fun o => K.put o (intToDec (hashf item % (st.structures.length : Int)))),
            structures := st.structures.set
              (hashf item % (st.structures.length : Int)).toNat
              (K.put (st.structures.getD
                (hashf item % (st.structures.length : Int)).toNat []) item) } := by
  obtain ⟨op, structs⟩ := st
  have hr := emod_index_range (hashf item) structs.length (by simpa using hk)
  cases op with
  | none =>
    simp only [MultiStruct.put]
    rw [if_pos hr]
    rfl
  | some o =>
    simp only [MultiStruct.put]
    rw [if_pos hr]
    rfl

theorem checkSameKind_ok (l : List String) : ∀ (t t' : String),
    checkSameKind t l = .ok t' → ∀ x ∈ l, x = t := by
  induction l with
  | nil => intro t t' _ x hx; simp at hx
  | cons u us ih =>
    intro t t' h x hx
    rw [checkSameKind] at h
    by_cases htu : t = u
    · rw [if_pos htu] at h
      rcases List.mem_cons.mp hx with rfl | hxm
      · exact htu.symm
      · exact ih t t' h x hxm
    · rw [if_neg htu] at h
      exact Except.noConfusion h

theorem firstKindCheck_all (l : List String) (t : String)
    (h : firstKindCheck l = .ok t) : ∀ x ∈ l, ∀ y ∈ l, x = y := by
  match l with
  | [] => intro x hx; simp at hx
  | u :: us =>
    rw [firstKindCheck] at h
    intro x hx y hy
    have hall := checkSameKind_ok us u t h
    rcases List.mem_cons.mp hx with rfl | hxm
    · rcases List.mem_cons.mp hy with rfl | hym
      · rfl
      · exact (hall y hym).symm
    · rcases List.mem_cons.mp hy with rfl | hym
      · exact hall x hxm
      · exact (hall x hxm).trans (hall y hym).symm

theorem putAll_size (hashf : Str → Int) (xs : List Str) : ∀ st : MultiState,
    st.opstruct = none → 0 < st.structures.length →
    ∃ st', MultiStruct.putAll queueOps hashf xs st = .ok st' ∧
      st'.opstruct = none ∧
      st'.structures.length = st.structures.length ∧
      MultiStruct.size queueOps st' = MultiStruct.size queueOps st + xs.length := by
  induction xs with
  | nil =>
    intro st h1 h2
    exact ⟨st, rfl, h1, rfl, by simp⟩
  | cons x xs ih =>
    intro st h1 h2
    have hput := multi_put_ok queueOps hashf st x h2
    rw [h1] at hput
    have hiN : (hashf x % (st.structures.length : Int)).toNat
        < st.structures.length := by
      have hr := emod_index_range (hashf x) st.structures.length h2
      omega
    have hlen1 : (st.structures.set
        (hashf x % (st.structures.length : Int)).toNat
        (queueOps.put (st.structures.getD
          (hashf x % (st.structures.length : Int)).toNat []) x)).length
        = st.structures.length := by
      rw [List.length_set]
    obtain ⟨st', hall, ho, hl, hs⟩ := ih
      ⟨none, st.structures.set
        (hashf x % (st.structures.length : Int)).toNat
        (queueOps.put (st.structures.getD
          (hashf x % (st.structures.length : Int)).toNat []) x)⟩
      rfl (by rw [hlen1] at *; exact (hlen1 ▸ h2))
    refine ⟨st', ?_, ho, ?_, ?_⟩
    · show MultiStruct.putAll queueOps hashf (x :: xs) st = .ok st'
      rw [MultiStruct.putAll, hput]
      exact hall
    · rw [hl]
      exact hlen1
    · rw [hs]
      have hsz : MultiStruct.size queueOps
          ⟨none, st.structures.set
            (hashf x % (st.structures.length : Int)).toNat
            (queueOps.put (st.structures.getD
              (hashf x % (st.structures.length : Int)).toNat []) x)⟩
          = MultiStruct.size queueOps st + 1 :=
        sum_size_set st.structures _ x hiN
      rw [hsz]
      simp [List.length_cons]
      omega

theorem multi_get_preserving (K : StructOps) (pick : Nat) (op : RList)
    (structs : List RList) (s : Str) (o' : RList) (i : Int)
    (hgo : K.get op = (some s, o'))
    (hparse : intParse? s = some i)
    (hrange : 0 ≤ i ∧ i < (structs.length : Int)) :
    MultiStruct.get K pick ⟨some op, structs⟩ =
      .ok ((K.get (structs.getD i.toNat [])).1,
        ⟨some o', structs.set i.toNat (K.get (structs.getD i.toNat [])).2⟩) := by
  simp only [MultiStruct.get, hgo, hparse, if_pos hrange]

/-! ### Claim theorems: MultiStruct -/

/-- Claim C7: in preserving mode, put computes the child index as the hash
of the item modulo the number of data children, records the index in the
order structure as its decimal string, then puts the item in that child;
get parses the recorded decimal string back to an integer and delegates to
the child at that index, returning the item. -/
theorem multi_preserving_put_get (hashf : Str → Int) (k : Nat) (item : Str)
    (hk : 0 < k) :
    MultiStruct.put queueOps hashf ⟨some [], List.replicate k []⟩ item =
      .ok ⟨some [intToDec (hashf item % (k : Int))],
           (List.replicate k []).set (hashf item % (k : Int)).toNat [item]⟩ ∧
    MultiStruct.get queueOps 0
      ⟨some [intToDec (hashf item % (k : Int))],
       (List.replicate k []).set (hashf item % (k : Int)).toNat [item]⟩ =
      .ok (some item,
        ⟨some [], (List.replicate k []).set (hashf item % (k : Int)).toNat []⟩) := by
  have hr := emod_index_range (hashf item) k hk
  constructor
  · rw [multi_put_ok queueOps hashf ⟨some [], List.replicate k []⟩ item
      (by simpa using hk)]
    simp only [List.length_replicate, Option.map_some', getD_replicate,
      show ∀ x : Str, queueOps.put [] x = [x] from fun _ => rfl]
  · have htN : (hashf item % (k : Int)).toNat < k := by omega
    have hlen : ((List.replicate k ([] : RList)).set
        (hashf item % (k : Int)).toNat [item]).length = k := by
      rw [List.length_set, List.length_replicate]
    rw [multi_get_preserving queueOps 0 [intToDec (hashf item % (k : Int))] _
      (intToDec (hashf item % (k : Int))) [] (hashf item % (k : Int)) rfl
      (intParse_intToDec _) (by rw [hlen]; exact hr)]
    rw [getD_set_self _ _ _ (by rw [List.length_replicate]; exact htN)]
    simp only [show queueOps.get [item] = (some item, []) from rfl]
    rw [List.set_set]

theorem multi_preserving_put_get_witness :
    MultiStruct.put queueOps (fun _ => (5 : Int))
      ⟨some [], List.replicate 3 []⟩ "ab".data =
      .ok ⟨some [intToDec 2], (List.replicate 3 []).set 2 ["ab".data]⟩ ∧
    MultiStruct.get queueOps 0
      ⟨some [intToDec 2], (List.replicate 3 []).set 2 ["ab".data]⟩ =
      .ok (some "ab".data, ⟨some [], (List.replicate 3 []).set 2 []⟩) := by
  have h := multi_preserving_put_get (fun _ => (5 : Int)) 3 "ab".data (by decide)
  exact h

/-- Claim C8: constructing a preserving MultiStruct with only 2 structures
fails; constructing a preserving MultiStruct whose children have mismatched
concrete kinds fails; constructing a load-balancing MultiStruct with fewer
than 2 structures fails. -/
theorem multi_init_validation :
    (∀ s1 s2 : String × RList, ∃ e, MultiStruct.init [s1, s2] true = .error e) ∧
    (∀ structs : List (String × RList),
      (∃ a ∈ structs, ∃ b ∈ structs, a.1 ≠ b.1) →
      ∃ e, MultiStruct.init structs true = .error e) ∧
    (∀ structs : List (String × RList), structs.length < 2 →
      ∃ e, MultiStruct.init structs false = .error e) := by
  refine ⟨?_, ?_, ?_⟩
  · intro s1 s2
    cases hfk : firstKindCheck [s1.1, s2.1] with
    | error e => exact ⟨e, by simp [MultiStruct.init, hfk]⟩
    | ok t => exact ⟨.tooFewPreserve, by simp [MultiStruct.init, hfk]⟩
  · rintro structs ⟨a, ha, b, hb, hab⟩
    cases hfk : firstKindCheck (structs.map Prod.fst) with
    | error e => exact ⟨e, by simp [MultiStruct.init, hfk]⟩
    | ok t =>
      exact absurd (firstKindCheck_all _ t hfk a.1 (List.mem_map_of_mem _ ha)
        b.1 (List.mem_map_of_mem _ hb)) hab
  · intro structs h
    have h2 : ¬(structs.length > 1) := by omega
    exact ⟨.tooFew, by simp [MultiStruct.init, h2]⟩

theorem multi_init_validation_witness :
    (∃ e, MultiStruct.init [("Queue", []), ("Queue", [])] true = .error e) ∧
    (∃ e, MultiStruct.init [("Queue", []), ("Stack", []), ("Queue", [])] true
      = .error e) ∧
    (∃ e, MultiStruct.init [("Queue", [])] false = .error e) :=
  ⟨multi_init_validation.1 ("Queue", []) ("Queue", []),
   multi_init_validation.2.1 _
     ⟨("Queue", []), by simp, ("Stack", []), by simp, by decide⟩,
   multi_init_validation.2.2 _ (by decide)⟩

/-- Claim C9: the size of a MultiStruct is the sum of the sizes of its data
children and does not count the order structure; with k load-balancing
children, after putting n items on a fresh MultiStruct the sum of the
children sizes is n, whatever the hash function. -/
theorem multi_size_counts (hashf : Str → Int) (k : Nat) (xs : List Str)
    (hk : 0 < k) :
    (∀ (K : StructOps) (op : Option RList) (structs : List RList),
      MultiStruct.size K ⟨op, structs⟩ = (structs.map K.size).sum) ∧
    (∃ st, MultiStruct.putAll queueOps hashf xs ⟨none, List.replicate k []⟩
        = .ok st ∧
      MultiStruct.size queueOps st = xs.length) := by
  refine ⟨fun K op structs => rfl, ?_⟩
  obtain ⟨st', h1, _, _, h4⟩ := putAll_size hashf xs ⟨none, List.replicate k []⟩
    rfl (by simpa using hk)
  refine ⟨st', h1, ?_⟩
  rw [h4]
  have hz : MultiStruct.size queueOps ⟨none, List.replicate k []⟩ = 0 := by
    simp [MultiStruct.size, queueOps, Queue.size, llen]
  rw [hz, Nat.zero_add]

theorem multi_size_counts_witness :
    ∃ st, MultiStruct.putAll queueOps (fun _ => (-7 : Int))
        ["a".data, "b".data, "c".data] ⟨none, List.replicate 2 []⟩ = .ok st ∧
      MultiStruct.size queueOps st = 3 :=
  (multi_size_counts (fun _ => (-7 : Int)) 2 ["a".data, "b".data, "c".data]
    (by decide)).2

/-- Claim C10: for every hash function returning an integer (negative
values included), the child index computed in put as the hash modulo the
number of data structures is always in range, so put always succeeds and
the out-of-range assertion branch is unreachable. -/
theorem multi_put_index_safe (K : StructOps) (hashf : Str → Int)
    (st : MultiState) (item : Str) (hk : 0 < st.structures.length) :
    ∃ st', MultiStruct.put K hashf st item = .ok st' :=
  ⟨_, multi_put_ok K hashf st item hk⟩

theorem multi_put_index_safe_witness :
    ∃ st', MultiStruct.put queueOps (fun _ => (-123 : Int))
      ⟨none, List.replicate 2 []⟩ "x".data = .ok st' :=
  multi_put_index_safe queueOps (fun _ => (-123 : Int))
    ⟨none, List.replicate 2 []⟩ "x".data (by decide)
